import Mathlib

/-!
Verification development for the fluent-cpp localization library.

The definitions below are a shallow embedding of the C++ sources:
  - src/src/ast.cpp       (pattern normalizer, number formatting, select matching,
                           the pattern formatter)
  - src/src/loader.cpp    (FluentLoader: resource ingestion, fallback lookup,
                           formatMessage)
  - src/src/parser.cpp    (only the MessageReference sub-grammar and the
                           SelectExpression constructor call shape are needed)
  - src/include/fluent/ast.hpp (AST data model, NumberLiteral equality,
                           Message/Attribute constructors, getAttribute)

Strings are modelled by Lean String/List Char, size_t by Nat (with the 64-bit
maximum written out where the C++ uses std::numeric_limits<size_t>::max()),
long by Int, and double by the rational numbers: decimal literal text is read
exactly into a rational, and DBL_EPSILON is 2^-52.  ICU facilities (number
formatters, plural rules, locale canonicalization) are external to the
repository and appear as explicit parameters: a FormatEnv carries the
formatting adapters and CLDR plural-category functions, and a locale is its
name string, used consistently as the bundle key on both the insertion and
the lookup side exactly as the code always keys by icu::Locale::getName().

The bodies of FluentBundle::addMessage / addTerm / getMessage / getTerm are
not present under src/ (only their declarations in include/fluent/bundle.hpp);
they are modelled from the spec where marked below.
-/

namespace FluentCpp

/-! ## Character-level utilities (std::string operations used by ast.cpp) -/

/-- The whitespace set used by stripStart, stripEnd, getMinIndent and
stripIndent in src/src/ast.cpp: the C++ passes the string " \r\n"
(resp. "\r\n ") to find_first_not_of / find_last_not_of. -/
def wsSet : List Char := [' ', '\r', '\n']

/-- std::string::find_first_not_of over a character list: the index of the
first character not in the given set, none when every character is in it. -/
def findFirstNotOf (set : List Char) : List Char → Option Nat
  | [] => none
  | c :: cs => if c ∈ set then (findFirstNotOf set cs).map (· + 1) else some 0

/-- std::string::find_last_not_of: index of the last character not in the set. -/
def findLastNotOf (set : List Char) : List Char → Option Nat
  | [] => none
  | c :: cs =>
    match findLastNotOf set cs with
    | some i => some (i + 1)
    | none => if c ∈ set then none else some 0

/-- stripStart (src/src/ast.cpp, lines 77-84): drop everything up to the first
character outside " \r\n"; a string of pure whitespace becomes empty. -/
def stripStartL (l : List Char) : List Char :=
  match findFirstNotOf wsSet l with
  | none => []
  | some b => l.drop b

/-- stripEnd (src/src/ast.cpp, lines 86-89): keep the prefix ending at the last
character outside " \r\n".  When no such character exists, find_last_not_of
returns npos and substr(0, npos + 1) is substr(0, 0), the empty string, by
size_t wrap-around. -/
def stripEndL (l : List Char) : List Char :=
  match findLastNotOf wsSet l with
  | none => []
  | some e => l.take (e + 1)

/-- Index of the first occurrence of the two-character sequence CR LF. -/
def findCRLF : List Char → Option Nat
  | '\r' :: '\n' :: _ => some 0
  | _ :: cs => (findCRLF cs).map (· + 1)
  | [] => none

/-- One rewriting pass of the replaceNewlines while-loop (src/src/ast.cpp,
lines 91-98): repeatedly replace the first "\r\n" by "\n" until none is left.
Each replacement shortens the string, so the string length bounds the number
of loop iterations and serves as fuel. -/
def replaceCRLFAux : Nat → List Char → List Char
  | 0, l => l
  | fuel + 1, l =>
    match findCRLF l with
    | none => l
    | some i => replaceCRLFAux fuel (l.take i ++ '\n' :: l.drop (i + 2))

/-- replaceNewlines (src/src/ast.cpp, lines 91-98). -/
def replaceNewlinesL (l : List Char) : List Char := replaceCRLFAux l.length l

/-- The line decomposition performed by the std::getline loops in getMinIndent
and stripIndent: getline extracts characters up to a '\n' (consuming it) and
fails only when no character could be read, so "a\nb" gives lines a and b,
"a\n" gives just a, "a" gives a, and the empty string gives no lines. -/
def getlines : List Char → List (List Char)
  | [] => []
  | c :: rest =>
    if c = '\n' then [] :: getlines rest
    else
      match getlines rest with
      | [] => [[c]]
      | line :: lines => (c :: line) :: lines

/-- std::numeric_limits<size_t>::max() on the 64-bit targets the code builds on. -/
def USIZE_MAX : Nat := 2 ^ 64 - 1

/-- getMinIndent (src/src/ast.cpp, lines 103-115): the minimum over all lines
containing a non-whitespace character of the index of its first
non-whitespace character; lines of pure whitespace are ignored.  The
accumulator starts at std::numeric_limits<size_t>::max(). -/
def getMinIndent (l : List Char) : Nat :=
  (getlines l).foldl
    (fun m line =>
      match findFirstNotOf wsSet line with
      | some p => if p < m then p else m
      | none => m)
    USIZE_MAX

/-- The per-line body of stripIndent (src/src/ast.cpp, lines 124-132): a line
of pure whitespace is cleared; otherwise, when the first non-whitespace
character is at a positive index, min(indent, startpos) characters are removed
from the front. -/
def stripIndentLine (indent : Nat) (line : List Char) : List Char :=
  match findFirstNotOf wsSet line with
  | none => []
  | some startpos => if 0 < startpos then line.drop (min indent startpos) else line

/-- stripIndent (src/src/ast.cpp, lines 120-136).  Note that the C++ getline
loop writes `result << line << '\n'` for every extracted line, so every line
— including a final line that was not newline-terminated in the input — comes
out newline-terminated. -/
def stripIndentL (l : List Char) (indent : Nat) : List Char :=
  ((getlines l).map (fun line => stripIndentLine indent line ++ ['\n'])).flatten

/-! ## The AST (src/include/fluent/ast.hpp) -/

/-- VariantKey (ast.hpp line 149): a bare identifier or a NumberLiteral,
the latter keeping its source text. -/
inductive VariantKey where
  | ident : String → VariantKey
  | number : String → VariantKey
deriving DecidableEq

/-- PatternElement (ast.hpp lines 199-201).  A SelectExpression stores its
selector (the C++ keeps a one-element vector and reads selector[0]), the
variant list in source order, and the default index. -/
inductive PatternElement where
  | text : String → PatternElement
  | stringLiteral : String → PatternElement
  | numberLiteral : String → PatternElement
  | variableReference : String → PatternElement
  | messageReference : String → Option String → PatternElement
  | termReference : String → Option String → PatternElement
  | selectExpression :
      PatternElement → List (VariantKey × List PatternElement) → Nat → PatternElement

def isText : PatternElement → Bool
  | .text _ => true
  | _ => false

/-! ## The pattern normalizer addPattern (src/src/ast.cpp, lines 138-199) -/

/-- The minimum-indent scan of addPattern's first loop (lines 144-157):
getMinIndent of every text element, folded with min into an accumulator that
starts at std::numeric_limits<size_t>::max(). -/
def patternMinIndent (p : List PatternElement) : Nat :=
  p.foldl
    (fun m e =>
      match e with
      | .text s => let i := getMinIndent s.data; if i < m then i else m
      | _ => m)
    USIZE_MAX

/-- Text flushed in the middle of the pattern (lines 172-183): the first flush
additionally strips leading whitespace. -/
def processedMid (first : Bool) (mi : Nat) (last : List Char) : String :=
  if first then String.mk (stripStartL (stripIndentL (replaceNewlinesL last) mi))
  else String.mk (stripIndentL (replaceNewlinesL last) mi)

/-- Text flushed after the loop (lines 191-198): trailing whitespace is
stripped, and leading whitespace as well when no flush happened before. -/
def processedEnd (first : Bool) (mi : Nat) (last : List Char) : String :=
  if first then String.mk (stripStartL (stripEndL (stripIndentL (replaceNewlinesL last) mi)))
  else String.mk (stripEndL (stripIndentL (replaceNewlinesL last) mi))

/-- The element loop of addPattern (lines 158-198), with the mutable state
(first, lastString, last) made explicit.  Consecutive text elements are
accumulated into `last`; a non-text element flushes the accumulated text
(processed) before being pushed through; a final accumulated text is flushed
with trailing whitespace stripped. -/
def addPatternLoop (mi : Nat) : List PatternElement → Bool → Bool → List Char → List PatternElement
  | [], first, lastString, last =>
    if lastString then [.text (processedEnd first mi last)] else []
  | e :: rest, first, lastString, last =>
    match e with
    | .text s => addPatternLoop mi rest first true (if lastString then last ++ s.data else s.data)
    | _ =>
      if lastString then
        .text (processedMid first mi last) :: e :: addPatternLoop mi rest false false []
      else
        e :: addPatternLoop mi rest first false []

/-- addPattern (src/src/ast.cpp, lines 138-199): normalizes newPattern and
appends the result to the existing pattern. -/
def addPattern (newPattern existing : List PatternElement) : List PatternElement :=
  existing ++ addPatternLoop (patternMinIndent newPattern) newPattern true false []

/-! ## Numeric model

long is modelled by Int and double by the rationals.  stol / stod read an
optional minus sign and then leading digits (the literals the parser produces
match `-? digits (. digits)?`, so the prefix-reading behavior of the C
functions reads the whole literal).  A decimal string is read exactly into a
rational; the C++ value additionally rounds to the nearest double, which is
irrelevant for the comparisons made in this file.  DBL_EPSILON is 2^-52. -/

def digitsToNat (ds : List Char) : Nat :=
  ds.foldl (fun n c => n * 10 + (c.toNat - 48)) 0

/-- stol: optional minus sign followed by the leading run of digits. -/
def stolZ (s : String) : Int :=
  match s.data with
  | '-' :: ds => -(digitsToNat (ds.takeWhile Char.isDigit) : Int)
  | ds => (digitsToNat (ds.takeWhile Char.isDigit) : Int)

def decToRat (ds : List Char) : ℚ :=
  let ip := ds.takeWhile Char.isDigit
  let rest := ds.dropWhile Char.isDigit
  match rest with
  | '.' :: fs =>
    let fp := fs.takeWhile Char.isDigit
    (digitsToNat ip : ℚ) + (digitsToNat fp : ℚ) / (10 ^ fp.length : ℚ)
  | _ => (digitsToNat ip : ℚ)

/-- stod on the decimal literals of this grammar. -/
def stodQ (s : String) : ℚ :=
  match s.data with
  | '-' :: ds => -(decToRat ds)
  | ds => decToRat ds

def dblEpsilon : ℚ := 1 / 2 ^ 52

/-- std::abs. -/
def cppAbs (q : ℚ) : ℚ := if q < 0 then -q else q

/-- std::min: returns b when b < a, else a. -/
def cppMin (a b : ℚ) : ℚ := if b < a then b else a

/-- NumberLiteral::operator==(const double&) (ast.hpp lines 125-129):
relative-epsilon comparison |a - b| <= |min(a, b)| * DBL_EPSILON with
a = stod(value). -/
def numLitEqD (litValue : String) (b : ℚ) : Bool :=
  let a := stodQ litValue
  decide (cppAbs (a - b) ≤ cppAbs (cppMin a b) * dblEpsilon)

/-- NumberLiteral::operator==(const long&) (ast.hpp lines 131-133): the long
is cast to double and compared as above. -/
def numLitEqL (litValue : String) (b : Int) : Bool :=
  numLitEqD litValue (b : ℚ)

/-- Index of the first '.' in a literal (std::string::find_first_of). -/
def findCharIdx (c : Char) : List Char → Option Nat
  | [] => none
  | d :: ds => if d = c then some 0 else (findCharIdx c ds).map (· + 1)

/-- NumberLiteral::getValue's dot test (ast.hpp lines 135-141). -/
def hasDot (s : String) : Bool := (findCharIdx '.' s.data).isSome

/-! ## Select-expression variant matching (src/src/ast.cpp, lines 297-369)

Each find overload makes a single find_if pass over the variants in source
order and falls back to variants[defaultVariant] when nothing matches.  The
CLDR plural category that icu::PluralRules::select returns for the selector
value under the bundle's locale is a fixed string during the pass and enters
here as the pluralCat parameter.  The default access is modelled with get?,
so an out-of-bounds default index (impossible for parser-built expressions,
see mkSelectVariants below) surfaces as none. -/

/-- Key predicate of SelectExpression::find(locale, string) (lines 299-311):
string keys compare for equality, NumberLiteral keys never match. -/
def variantKeyMatchesStr (key : String) : VariantKey → Bool
  | .ident s => s == key
  | .number _ => false

def findStr (variants : List (VariantKey × List PatternElement)) (dflt : Nat)
    (key : String) : Option (List PatternElement) :=
  match variants.find? (fun v => variantKeyMatchesStr key v.1) with
  | some v => some v.2
  | none => (variants.get? dflt).map (fun v => v.2)

/-- Key predicate of SelectExpression::find(locale, double) (lines 322-337):
identifier keys compare against the plural category of the selector, number
keys against the selector by relative-epsilon numeric equality. -/
def variantKeyMatchesD (pluralCat : String) (key : ℚ) : VariantKey → Bool
  | .ident s => pluralCat == s
  | .number lit => numLitEqD lit key

def findD (pluralCat : String) (variants : List (VariantKey × List PatternElement))
    (dflt : Nat) (key : ℚ) : Option (List PatternElement) :=
  match variants.find? (fun v => variantKeyMatchesD pluralCat key v.1) with
  | some v => some v.2
  | none => (variants.get? dflt).map (fun v => v.2)

/-- Key predicate of SelectExpression::find(locale, long) (lines 348-363); the
plural category is the one ICU computes for the int32_t-cast selector. -/
def variantKeyMatchesL (pluralCat : String) (key : Int) : VariantKey → Bool
  | .ident s => pluralCat == s
  | .number lit => numLitEqL lit key

def findL (pluralCat : String) (variants : List (VariantKey × List PatternElement))
    (dflt : Nat) (key : Int) : Option (List PatternElement) :=
  match variants.find? (fun v => variantKeyMatchesL pluralCat key v.1) with
  | some v => some v.2
  | none => (variants.get? dflt).map (fun v => v.2)

/-- The SelectExpression constructor (ast.hpp lines 175-185): the variants
field is initialized with the variants before the `*`-marked default, the
default index is recorded as their count, the default variant is pushed, and
the variants after it are appended.  Returns (variants, defaultVariant). -/
def mkSelectVariants (first : List (VariantKey × List PatternElement))
    (dflt : VariantKey × List PatternElement)
    (last : List (VariantKey × List PatternElement)) :
    List (VariantKey × List PatternElement) × Nat :=
  (first ++ dflt :: last, first.length)

/-! ## Number formatting (src/src/ast.cpp, lines 223-295)

The ICU number formatter and plural rules live outside the repository; a
FormatEnv carries them as functions.  fmtInt and fmtDec return the formatted
text together with an ok flag (icu::ErrorCode::isSuccess). -/

structure FormatEnv where
  /-- formatInt of the locale's NumberFormatter. -/
  fmtInt : String → Int → String × Bool
  /-- formatDouble with Precision::minFraction(minFractionDigits). -/
  fmtDec : String → ℚ → Nat → String × Bool
  /-- formatDouble with no precision configured (used for double variables). -/
  fmtDoublePlain : String → ℚ → String × Bool
  /-- PluralRules::select for an int32_t value. -/
  pluralInt : String → Int → String
  /-- PluralRules::select for a double value. -/
  pluralDec : String → ℚ → String
  /-- The locale captured by the function-local static LocalizedNumberFormatter
  in NumberLiteral::format (src/src/ast.cpp line 224): none when the process
  has not yet called NumberLiteral::format, otherwise the locale of the first
  call, which every later call keeps using. -/
  litLocale : Option String

/-- std::to_string for a double: printf %f, six fractional digits. -/
def cppToStringFloat (q : ℚ) : String :=
  let sign := if q < 0 then "-" else ""
  let n := (|q| * 1000000 + 1 / 2).floor.toNat
  let ip := n / 1000000
  let fp := n % 1000000
  let fps := toString fp
  sign ++ toString ip ++ "." ++ String.mk (List.replicate (6 - fps.length) '0') ++ fps

/-- NumberLiteral::format (src/src/ast.cpp, lines 223-254) given the locale
the static formatter actually holds.  The returned flag records whether the
failure branch logged to std::cerr.  A literal without '.' is formatted as an
integer and on formatter error falls back to the raw literal text with a log;
a literal with '.' is formatted with minFraction set to the digit count after
the '.' and its result is returned directly — the early return skips the
status check, so no fallback and no log happen on that path. -/
def numberLiteralFormat (env : FormatEnv) (loc : String) (value : String) : String × Bool :=
  match findCharIdx '.' value.data with
  | none =>
    let r := env.fmtInt loc (stolZ value)
    if r.2 then (r.1, false) else (value, true)
  | some decimalPos =>
    let significantDigits := value.data.length - decimalPos - 1
    ((env.fmtDec loc (stodQ value) significantDigits).1, false)

/-- One call to NumberLiteral::format including the function-local static
formatter: the static is initialized from the locale of the first call and
never re-initialized, so the call formats with the cached locale when one
exists and otherwise caches the current one.  Returns the (text, logged)
result and the cache after the call. -/
def numberLiteralFormatCall (env : FormatEnv) (cached : Option String) (loc : String)
    (value : String) : (String × Bool) × Option String :=
  let eff := cached.getD loc
  (numberLiteralFormat env eff value, some eff)

/-- Variable (ast.hpp line 148): std::variant<std::string, long, double>. -/
inductive Variable where
  | str : String → Variable
  | int : Int → Variable
  | dbl : ℚ → Variable

/-- formatVariable (src/src/ast.cpp, lines 256-295): strings verbatim; longs
and doubles through a freshly created locale formatter, falling back to
std::to_string on formatter error. -/
def formatVariable (env : FormatEnv) (loc : String) : Variable → String
  | .str s => s
  | .int n =>
    let r := env.fmtInt loc n
    if r.2 then r.1 else toString n
  | .dbl q =>
    let r := env.fmtDoublePlain loc q
    if r.2 then r.1 else cppToStringFloat q

/-! ## Messages, attributes and their maps (ast.hpp, ast.cpp lines 201-221)

std::unordered_map / std::map with string keys are modelled as association
lists with unique semantics given by the two insert operations below; lookup
takes the first binding with the key. -/

def lookupAssoc (m : List (String × α)) (k : String) : Option α :=
  (m.find? (fun p => p.1 == k)).map (fun p => p.2)

/-- std::unordered_map::insert: when the key is already present the map is
left unchanged (the new value is discarded); otherwise the binding is added. -/
def insertNoReplace (m : List (String × α)) (k : String) (v : α) : List (String × α) :=
  if (m.find? (fun p => p.1 == k)).isSome then m else m ++ [(k, v)]

/-- Insert-with-overwrite: the new binding shadows any earlier one under
first-binding lookup. -/
def insertOverwrite (m : List (String × α)) (k : String) (v : α) : List (String × α) :=
  (k, v) :: m

structure Attribute where
  id : String
  pattern : List PatternElement

/-- The Attribute constructor (src/src/ast.cpp, lines 201-205): the raw parsed
pattern is normalized through addPattern into the stored pattern. -/
def Attribute.make (id : String) (raw : List PatternElement) : Attribute :=
  ⟨id, addPattern raw []⟩

structure Message where
  id : String
  pattern : List PatternElement
  attributes : List (String × Attribute)

/-- The Message constructor (src/src/ast.cpp, lines 210-221): the raw pattern
is normalized through addPattern, and the attributes are inserted one by one
into the unordered_map with std::unordered_map::insert, so an attribute whose
id is already present is discarded. -/
def Message.make (id : String) (rawPattern : List PatternElement)
    (attrs : List Attribute) : Message :=
  ⟨id, addPattern rawPattern [],
    attrs.foldl (fun m a => insertNoReplace m a.id a) []⟩

/-- Message::getAttribute (ast.hpp lines 301-308). -/
def Message.getAttribute (m : Message) (identifier : String) : Option Attribute :=
  lookupAssoc m.attributes identifier

/-- Term is a Message with a distinguishing tag only (ast.hpp lines 334-341). -/
abbrev Term := Message

/-- Entry (ast.hpp line 343). -/
inductive Entry where
  | message : Message → Entry
  | term : Term → Entry
  | comment : List String → Entry
  | junk : String → Entry

/-! ## Bundle and loader (src/src/loader.cpp, include/fluent/bundle.hpp) -/

structure FluentBundle where
  messages : List (String × Message)
  terms : List (String × Term)

/-- Modelled from the spec: the bodies of FluentBundle::addMessage and
FluentBundle::addTerm are not under src/ (include/fluent/bundle.hpp only
declares them); spec §4.3 states "insert into the message map keyed by id.
Later inserts with the same id overwrite", and messages and terms live in
separate namespaces. -/
def FluentBundle.addMessage (b : FluentBundle) (m : Message) : FluentBundle :=
  { b with messages := insertOverwrite b.messages m.id m }

/-- Modelled from the spec: see FluentBundle.addMessage. -/
def FluentBundle.addTerm (b : FluentBundle) (t : Term) : FluentBundle :=
  { b with terms := insertOverwrite b.terms t.id t }

/-- Modelled from the spec: pure lookup by id (spec §4.3). -/
def FluentBundle.getMessage (b : FluentBundle) (id : String) : Option Message :=
  lookupAssoc b.messages id

/-- Modelled from the spec: see FluentBundle.getMessage. -/
def FluentBundle.getTerm (b : FluentBundle) (id : String) : Option Term :=
  lookupAssoc b.terms id

def emptyBundle : FluentBundle := ⟨[], []⟩

structure FluentLoader where
  bundles : List (String × FluentBundle)

/-- FluentLoader::addResource(locale, entries) (src/src/loader.cpp, lines
43-65): a fresh bundle is built from the entries — Message and Term entries
are added, comments and junk dropped — and then inserted into the bundle map
with std::unordered_map::insert, which leaves an already-present locale's
bundle untouched and discards the new one. -/
def FluentLoader.addResourceEntries (l : FluentLoader) (locName : String)
    (entries : List Entry) : FluentLoader :=
  let bundle := entries.foldl
    (fun b e =>
      match e with
      | .message m => b.addMessage m
      | .term t => b.addTerm t
      | .comment _ => b
      | .junk _ => b)
    emptyBundle
  ⟨insertNoReplace l.bundles locName bundle⟩

/-- FluentLoader::getMessage (src/src/loader.cpp, lines 116-128): the locales
of the fallback chain are tried in order; the first bundle that contains the
message wins and its locale is returned with the message. -/
def FluentLoader.getMessage (l : FluentLoader) :
    List String → String → Option (Message × String)
  | [], _ => none
  | loc :: rest, resId =>
    match lookupAssoc l.bundles loc with
    | some b =>
      match b.getMessage resId with
      | some m => some (m, loc)
      | none => l.getMessage rest resId
    | none => l.getMessage rest resId

/-- FluentLoader::getTerm (src/src/loader.cpp, lines 130-141): as getMessage,
but the locale is not surfaced. -/
def FluentLoader.getTerm (l : FluentLoader) : List String → String → Option Term
  | [], _ => none
  | loc :: rest, resId =>
    match lookupAssoc l.bundles loc with
    | some b =>
      match b.getTerm resId with
      | some t => some t
      | none => l.getTerm rest resId
    | none => l.getTerm rest resId

/-! ## parseMessageReference (src/src/parser.cpp, lines 127-134, 170-180, 445-452)

The MessageReference grammar is Identifier followed by an optional attribute
accessor '.' Identifier, with Identifier = [A-Za-z_][A-Za-z0-9_-]*.  lexy's
parse of this production does not require the end of input, so trailing text
is ignored; a parse failure makes parseMessageReference throw, modelled as
none. -/

def isIdentHead (c : Char) : Bool := c.isAlpha || c = '_'

def isIdentTail (c : Char) : Bool := c.isAlphanum || c = '_' || c = '-'

def parseMessageReference (s : String) : Option (String × Option String) :=
  match s.data with
  | [] => none
  | c :: cs =>
    if isIdentHead c then
      let base := String.mk (c :: cs.takeWhile isIdentTail)
      match cs.dropWhile isIdentTail with
      | '.' :: d :: ds =>
        if isIdentHead d then
          some (base, some (String.mk (d :: ds.takeWhile isIdentTail)))
        else none
      | '.' :: [] => none
      | _ => some (base, none)
    else none

/-! ## The pattern formatter (src/src/ast.cpp, lines 371-460)

formatPattern walks the elements left to right and renders each into the
output.  The C++ recursion through message, term, attribute and select
sub-patterns is unbounded (reference cycles crash the process); the embedding
carries explicit fuel, decremented on every entry into a sub-pattern, and a
result of none means the C++ call does not return normally: fuel exhaustion
(stack overflow on a cycle), std::map::at on a missing argument
(std::out_of_range), or the undefined behavior of dereferencing the empty
optional<Attribute> for a missing attribute. -/

/-- getSelectExpressionPattern (src/src/ast.cpp, lines 371-394): evaluate the
selector to a string, long or double and dispatch to the corresponding find
overload; any other selector shape yields an empty pattern.  The plural
category for the find pass is obtained from the environment. -/
def getSelectPattern (env : FormatEnv) (loc : String) (sel : PatternElement)
    (variants : List (VariantKey × List PatternElement)) (dflt : Nat)
    (args : List (String × Variable)) : Option (List PatternElement) :=
  match sel with
  | .stringLiteral s => findStr variants dflt s
  | .numberLiteral lit =>
    if hasDot lit then findD (env.pluralDec loc (stodQ lit)) variants dflt (stodQ lit)
    else findL (env.pluralInt loc (stolZ lit)) variants dflt (stolZ lit)
  | .variableReference id =>
    match lookupAssoc args id with
    | none => none
    | some (.str s) => findStr variants dflt s
    | some (.int n) => findL (env.pluralInt loc n) variants dflt n
    | some (.dbl q) => findD (env.pluralDec loc q) variants dflt q
  | _ => some []

/-- formatPattern (src/src/ast.cpp, lines 396-460): the elements are rendered
left to right and concatenated; an abnormal element aborts the call.  The
fuel decreases by one at every recursive call (element steps as well as
entries into sub-patterns), so any run of the C++ recursion that terminates
is reproduced exactly by every sufficiently large fuel. -/
def formatPattern (env : FormatEnv) (lookupM : String → Option Message)
    (lookupT : String → Option Term) :
    Nat → String → List PatternElement → List (String × Variable) → Option String
  | 0, _, _, _ => none
  | fuel + 1, loc, elems, args =>
    match elems with
    | [] => some ""
    | e :: rest =>
      let head : Option String :=
        match e with
        | .text s => some s
        | .stringLiteral s => some s
        | .numberLiteral v =>
          some (numberLiteralFormat env (env.litLocale.getD loc) v).1
        | .variableReference id =>
          (lookupAssoc args id).map (formatVariable env loc)
        | .messageReference id attr =>
          match lookupM id with
          | some msg =>
            match attr with
            | some attrId =>
              match msg.getAttribute attrId with
              | some a => formatPattern env lookupM lookupT fuel loc a.pattern args
              | none => none
            | none => formatPattern env lookupM lookupT fuel loc msg.pattern args
          | none => some ("unknown message \x7b " ++ id ++ " \x7d")
        | .termReference id attr =>
          match lookupT id with
          | some term =>
            match attr with
            | some attrId =>
              match term.getAttribute attrId with
              | some a => formatPattern env lookupM lookupT fuel loc a.pattern []
              | none => none
            | none => formatPattern env lookupM lookupT fuel loc term.pattern []
          | none => some ("unknown message \x7b -" ++ id ++ " \x7d")
        | .selectExpression sel variants dflt =>
          match getSelectPattern env loc sel variants dflt args with
          | none => none
          | some p => formatPattern env lookupM lookupT fuel loc p args
      match head with
      | none => none
      | some s =>
        match formatPattern env lookupM lookupT fuel loc rest args with
        | none => none
        | some t => some (s ++ t)

/-- FluentLoader::formatMessage (src/src/loader.cpp, lines 143-177): the
message/term lookups close over the whole fallback chain; the requested id is
split by parseMessageReference into base id and optional attribute; the
message is resolved through the chain and its (or the attribute's) pattern is
formatted in the locale the message was found under.  The outer layer of the
result distinguishes an abnormal call (none — thrown exception or undefined
behavior) from a returned optional: some none is the empty optional returned
when no locale defines the message or the requested attribute is absent, and
some (some s) is a successful format. -/
def FluentLoader.formatMessage (l : FluentLoader) (env : FormatEnv) (fuel : Nat)
    (chain : List String) (resId : String) (args : List (String × Variable)) :
    Option (Option String) :=
  let lookupM := fun id => (l.getMessage chain id).map (fun p => p.1)
  let lookupT := fun id => l.getTerm chain id
  match parseMessageReference resId with
  | none => none
  | some (base, attrOpt) =>
    match l.getMessage chain base with
    | none => some none
    | some (msg, loc) =>
      match attrOpt with
      | some attrId =>
        match msg.getAttribute attrId with
        | some attr => (formatPattern env lookupM lookupT fuel loc attr.pattern args).map some
        | none => some none
      | none => (formatPattern env lookupM lookupT fuel loc msg.pattern args).map some

/-! ## Concrete fixtures used by the theorems below -/

/-- A formatting environment whose adapters always succeed: integers render
as their base-10 digits (as the en locale does for small numbers) and the
plural-category functions are arbitrary (the fixtures using this environment
never reach them).  The static number-literal formatter has not been
initialized. -/
def envTest : FormatEnv :=
  { fmtInt := fun _ n => (toString n, true)
    fmtDec := fun _ _ _ => ("DEC", true)
    fmtDoublePlain := fun _ _ => ("D", true)
    pluralInt := fun _ _ => "other"
    pluralDec := fun _ _ => "other"
    litLocale := none }

/-- The raw parse of `greeting = Hello, { -brand.formal }.` — inline_text up
to the placeable (text_char accepts the space), the term reference with its
attribute accessor, and the closing inline_text — fed through the Message
constructor. -/
def greetingMsg : Message :=
  Message.make "greeting"
    [.text "Hello, ", .termReference "brand" (some "formal"), .text "."] []

/-- The raw parse of `-brand = Acme` with attribute `.formal = Acme Ltd.`,
fed through the Term constructor (the stored id drops the leading dash). -/
def brandTerm : Term :=
  Message.make "brand" [.text "Acme"] [Attribute.make "formal" [.text "Acme Ltd."]]

/-- A loader holding the two en-GB entries of spec §8 scenario 6. -/
def c2Loader : FluentLoader :=
  (FluentLoader.mk []).addResourceEntries "en-GB" [.message greetingMsg, .term brandTerm]

/-- Variants of a select expression in source order: the identifier key `one`
first, then the NumberLiteral key `1`, with the default at index 2 (its value
is irrelevant to the match). -/
def c1Variants : List (VariantKey × List PatternElement) :=
  [(.ident "one", [.text "A"]), (.number "1", [.text "B"])]

/-- A loader after a first add_resource for en defining message m1. -/
def c3Loader1 : FluentLoader :=
  (FluentLoader.mk []).addResourceEntries "en" [.message (Message.make "m1" [.text "A"] [])]

/-- The same loader after a second add_resource for en defining message m2. -/
def c3Loader2 : FluentLoader :=
  c3Loader1.addResourceEntries "en" [.message (Message.make "m2" [.text "B"] [])]

/-- An environment whose locale number formatter always reports failure; the
decimal formatter's (failed) output text is "FAILED". -/
def c9Env : FormatEnv :=
  { fmtInt := fun _ _ => ("FMT", false)
    fmtDec := fun _ _ _ => ("FAILED", false)
    fmtDoublePlain := fun _ _ => ("", false)
    pluralInt := fun _ _ => "other"
    pluralDec := fun _ _ => "other"
    litLocale := none }

/-- An environment whose integer formatter renders differently under the ar
and en locales (as ICU does: Eastern Arabic vs Latin digits). -/
def c5Env : FormatEnv :=
  { fmtInt := fun loc n => (if loc == "ar" then "AR" ++ toString n else toString n, true)
    fmtDec := fun _ _ _ => ("DEC", true)
    fmtDoublePlain := fun _ _ => ("D", true)
    pluralInt := fun _ _ => "other"
    pluralDec := fun _ _ => "other"
    litLocale := none }

/-- A Message with two attributes that share the id a, in insertion order. -/
def c6Msg : Message :=
  Message.make "m" [] [Attribute.make "a" [.text "1"], Attribute.make "a" [.text "2"]]

/-- A message lookup resolving m to a message that has no attributes. -/
def c10LookupM : String → Option Message :=
  fun id => if id == "m" then some (Message.make "m" [.text "hi"] []) else none

/-- A message lookup resolving m to a message that does carry attribute a. -/
def c10LookupM2 : String → Option Message :=
  fun id =>
    if id == "m" then some (Message.make "m" [.text "hi"] [Attribute.make "a" [.text "A"]])
    else none

def noTerms : String → Option Term := fun _ => none

/-! ## Predicates for the normalizer invariants -/

/-- Whether the character list contains the two-character sequence CR LF. -/
def containsCRLF : List Char → Bool
  | '\r' :: '\n' :: _ => true
  | _ :: rest => containsCRLF rest
  | [] => false

/-- Whether the character list starts with the two-character sequence CR LF. -/
def startsWithCRLF : List Char → Bool
  | c1 :: c2 :: _ => c1 = '\r' && c2 = '\n'
  | _ => false

/-- No two adjacent elements of the pattern are text elements. -/
def NoAdjTexts : List PatternElement → Prop
  | e1 :: e2 :: rest => ¬(isText e1 = true ∧ isText e2 = true) ∧ NoAdjTexts (e2 :: rest)
  | _ => True

/-- The string has no leading space, carriage return or newline. -/
def LeadingOK (s : String) : Prop := ∀ c, s.data.head? = some c → c ∉ wsSet

/-- The string has no trailing space, carriage return or newline. -/
def TrailingOK (s : String) : Prop := ∀ c, s.data.getLast? = some c → c ∉ wsSet

/-- The top-level text elements of a pattern, in order. -/
def textsOfPattern (p : List PatternElement) : List String :=
  p.filterMap (fun e => match e with | .text s => some s | _ => none)

/-- Whether the loader's bundle for the given locale defines the message. -/
def definesIn (l : FluentLoader) (loc : String) (base : String) : Bool :=
  ((lookupAssoc l.bundles loc).bind (fun b => b.getMessage base)).isSome

/-- A loader in which the locales aa and bb hold identical resources (the
same single message m). -/
def c4Loader : FluentLoader :=
  ((FluentLoader.mk []).addResourceEntries "aa"
      [.message (Message.make "m" [.text "M"] [])]).addResourceEntries "bb"
    [.message (Message.make "m" [.text "M"] [])]

/-! # Theorems -/

/-- C1, counterexample.  With the en locale and selector value 1 (whose CLDR
plural category is "one"), a variant list containing the identifier key `one`
before the NumberLiteral key `1`: the NumberLiteral key is numerically equal
to the selector, yet SelectExpression::find(locale, long) — a single
first-match pass in source order — returns the pattern of the earlier
identifier variant, not (as the claim requires) the pattern of the
numerically equal NumberLiteral variant. -/
theorem c1_counterexample :
    numLitEqL "1" 1 = true ∧
    findL "one" c1Variants 2 1 = some [.text "A"] ∧
    ¬ findL "one" c1Variants 2 1 = some [.text "B"] := by
  refine ⟨?_, rfl, ?_⟩
  · simp [numLitEqL, numLitEqD, stodQ, decToRat, digitsToNat, cppAbs, cppMin, dblEpsilon]
    norm_num
  · intro h
    rw [show findL "one" c1Variants 2 1 = some [.text "A"] from rfl] at h
    injection h with h1
    injection h1 with h2 h3
    injection h2 with h4
    exact absurd h4 (by decide)

/-- C2.  Evaluating the exact scenario of the claim — the loader holding the
en-GB resources `greeting = Hello, { -brand.formal }.` and `-brand = Acme`
with `.formal = Acme Ltd.` — format_message(["en-GB", "en"], "greeting", {})
returns the string "Hello, \nAcme Ltd..", not the claimed
"Hello, Acme Ltd..": the stripIndent getline loop of the normalizer appends
a newline to the text run "Hello, " (which precedes a placeable and is never
end-trimmed). -/
theorem c2_greeting_format :
    c2Loader.formatMessage envTest 9 ["en-GB", "en"] "greeting" []
      = some (some "Hello, \nAcme Ltd..") ∧
    "Hello, \nAcme Ltd.." ≠ "Hello, Acme Ltd.." := ⟨rfl, by decide⟩

/-- C3, counterexample.  After add_resource("en", {m1}) followed by
add_resource("en", {m2}), the claim requires m2 to be retrievable and m1
not; but std::unordered_map::insert leaves the existing en bundle in place,
so m2 is not retrievable and m1 still is. -/
theorem c3_counterexample :
    c3Loader2.getMessage ["en"] "m2" = none ∧
    (c3Loader2.getMessage ["en"] "m1").isSome = true := ⟨rfl, rfl⟩

/-- C5.  NumberLiteral::format builds its LocalizedNumberFormatter in a
function-local static, initialized from the locale of the first call in the
process.  In an environment whose integer formatter renders differently for
ar and en: a fresh process formatting the literal 5 under en yields "5", but
if some earlier call used ar, the same (literal 5, locale en) call yields
"AR5" — the output is not a function of the literal and the call's locale
alone. -/
theorem c5_static_formatter_locale_leak :
    (numberLiteralFormatCall c5Env none "en" "5").1.1 = "5" ∧
    (numberLiteralFormatCall c5Env none "ar" "7").2 = some "ar" ∧
    (numberLiteralFormatCall c5Env (some "ar") "en" "5").1.1 = "AR5" ∧
    "AR5" ≠ "5" := ⟨rfl, rfl, rfl, by decide⟩

/-- C6, counterexample.  A Message constructed with two attributes both named
a (patterns 1 and 2, in insertion order): the claim requires getAttribute to
return the last one, but std::unordered_map::insert discards the duplicate,
so the first one is returned. -/
theorem c6_counterexample :
    (c6Msg.getAttribute "a").map (fun a => a.pattern) = some [.text "1"] ∧
    ¬ (c6Msg.getAttribute "a").map (fun a => a.pattern) = some [.text "2"] := by
  refine ⟨rfl, ?_⟩
  intro h
  rw [show (c6Msg.getAttribute "a").map (fun a => a.pattern) = some [.text "1"] from rfl] at h
  injection h with h1
  injection h1 with h2 h3
  injection h2 with h4
  exact absurd h4 (by decide)

/-- C7, counterexample.  The raw pattern of `m = a\r{ $x }` (a lone carriage
return is a legal text character, parser.cpp line 58 and the comment at line
66): the normalizer output's text element is "a\r\n" — stripIndent's getline
loop appends a newline to the run, creating a CR LF pair — so a text element
does contain "\r\n", and the pattern's last text element ends in whitespace,
contradicting the claim's contains-no-CRLF and trailing-whitespace clauses. -/
theorem c7_counterexample :
    addPattern [.text "a\r", .variableReference "x"] []
      = [.text "a\r\n", .variableReference "x"] ∧
    containsCRLF "a\r\n".data = true ∧
    "a\r\n".data.getLast? = some '\n' := ⟨rfl, rfl, rfl⟩

/-- C8.  The SelectExpression constructor records the default index as the
count of the variants preceding the `*`-marked default, then stores the
variants in source order (before-variants, default, after-variants): the
default index is always in bounds, the variant it points at is exactly the
default one, and the stored list is the source-ordered concatenation. -/
theorem c8_default_variant_invariants
    (first : List (VariantKey × List PatternElement))
    (dflt : VariantKey × List PatternElement)
    (last : List (VariantKey × List PatternElement)) :
    (mkSelectVariants first dflt last).2 < (mkSelectVariants first dflt last).1.length ∧
    (mkSelectVariants first dflt last).1.get? (mkSelectVariants first dflt last).2
      = some dflt ∧
    (mkSelectVariants first dflt last).1 = first ++ dflt :: last := by
  refine ⟨?_, ?_, rfl⟩
  · simp [mkSelectVariants]
  · simp [mkSelectVariants]
    rw [List.getElem_append_right (Nat.le_refl _)]
    simp

/-- C9.  In an environment whose locale number formatter reports failure:
formatting the NumberLiteral "1.0" (the decimal branch) returns the failed
formatter output without logging — the early return at ast.cpp lines 237-242
skips the status check — while the claim requires a log and the raw "1.0";
the integer branch (literal "10") does log and fall back as claimed. -/
theorem c9_decimal_error_path :
    numberLiteralFormat c9Env "en" "1.0" = ("FAILED", false) ∧
    numberLiteralFormat c9Env "en" "10" = ("10", true) ∧
    (("FAILED", false) : String × Bool) ≠ ("1.0", true) := ⟨rfl, rfl, by decide⟩

/-- C10, counterexample.  A pattern referencing attribute a of message m,
where the lookup finds m but m has no attribute a: formatPattern reaches the
branch that dereferences the empty optional<Attribute> (undefined behavior,
modelled as an abnormal result), so formatting is not total there and the
empty-optional access is reachable. -/
theorem c10_counterexample :
    c10LookupM "m" = some (Message.make "m" [.text "hi"] []) ∧
    (Message.make "m" [.text "hi"] []).getAttribute "a" = none ∧
    formatPattern envTest c10LookupM noTerms 5 "en"
      [.messageReference "m" (some "a")] [] = none := ⟨rfl, rfl, rfl⟩

/-! ## Helper lemmas -/

/-- List.find? returns the first element satisfying the predicate, or none
when no element does. -/
theorem find_first_characterization (p : α → Bool) (l : List α) :
    (∃ i, ∃ h : i < l.length,
        p (l.get ⟨i, h⟩) = true ∧
        (∀ j (hj : j < l.length), j < i → p (l.get ⟨j, hj⟩) = false) ∧
        l.find? p = some (l.get ⟨i, h⟩))
    ∨ ((∀ a ∈ l, p a = false) ∧ l.find? p = none) := by
  induction l with
  | nil =>
    right
    refine ⟨?_, rfl⟩
    intro a ha
    cases ha
  | cons a t ih =>
    cases hp : p a with
    | true =>
      left
      refine ⟨0, by simp, ?_, ?_, ?_⟩
      · simpa using hp
      · intro j hj hj0; omega
      · simp [List.find?, hp]
    | false =>
      rcases ih with ⟨i, h, hpi, hbefore, hfind⟩ | ⟨hall, hfind⟩
      · left
        refine ⟨i + 1, by simpa using Nat.succ_lt_succ h, ?_, ?_, ?_⟩
        · simpa using hpi
        · intro j hj hji
          cases j with
          | zero => simpa using hp
          | succ j0 =>
            have hj0 : j0 < t.length := Nat.lt_of_succ_lt_succ hj
            have := hbefore j0 hj0 (Nat.lt_of_succ_lt_succ hji)
            simpa using this
        · simp [List.find?, hp, hfind]
      · right
        refine ⟨?_, by simp [List.find?, hp, hfind]⟩
        intro x hx
        cases hx with
        | head => exact hp
        | tail _ hmem => exact hall x hmem

/-- Looking a key up in a concatenation of association lists: the first list
takes precedence. -/
theorem lookupAssoc_append (m1 m2 : List (String × α)) (x : String) :
    lookupAssoc (m1 ++ m2) x =
      match lookupAssoc m1 x with
      | some v => some v
      | none => lookupAssoc m2 x := by
  unfold lookupAssoc
  rw [List.find?_append]
  cases m1.find? (fun p => p.1 == x) <;> simp

/-! ## C1: select-expression matching order -/

/-- C1, amended claim.  For every numeric selector — the long overload
find(locale, long) as well as the double overload find(locale, double),
reached by dotted number literals and double variables — the variants are
scanned once in source order; a NumberLiteral key matches by numeric equality
and an identifier key matches when it equals the selector's CLDR plural
category; the first matching variant in source order provides the result, and
only when no variant of either kind matches is the default variant used. -/
theorem c1_first_match_semantics (pluralCat : String)
    (variants : List (VariantKey × List PatternElement)) (dflt : Nat)
    (keyL : Int) (keyD : ℚ) :
    ((∃ i, ∃ h : i < variants.length,
        variantKeyMatchesL pluralCat keyL (variants.get ⟨i, h⟩).1 = true ∧
        (∀ j (hj : j < variants.length), j < i →
            variantKeyMatchesL pluralCat keyL (variants.get ⟨j, hj⟩).1 = false) ∧
        findL pluralCat variants dflt keyL = some (variants.get ⟨i, h⟩).2)
      ∨ ((∀ v ∈ variants, variantKeyMatchesL pluralCat keyL v.1 = false) ∧
        findL pluralCat variants dflt keyL = (variants.get? dflt).map (fun v => v.2)))
    ∧ ((∃ i, ∃ h : i < variants.length,
        variantKeyMatchesD pluralCat keyD (variants.get ⟨i, h⟩).1 = true ∧
        (∀ j (hj : j < variants.length), j < i →
            variantKeyMatchesD pluralCat keyD (variants.get ⟨j, hj⟩).1 = false) ∧
        findD pluralCat variants dflt keyD = some (variants.get ⟨i, h⟩).2)
      ∨ ((∀ v ∈ variants, variantKeyMatchesD pluralCat keyD v.1 = false) ∧
        findD pluralCat variants dflt keyD = (variants.get? dflt).map (fun v => v.2))) := by
  constructor
  · rcases find_first_characterization (fun v => variantKeyMatchesL pluralCat keyL v.1)
        variants with ⟨i, h, hp, hbefore, hfind⟩ | ⟨hall, hfind⟩
    · left
      refine ⟨i, h, hp, fun j hj hji => hbefore j hj hji, ?_⟩
      unfold findL
      rw [hfind]
    · right
      refine ⟨hall, ?_⟩
      unfold findL
      rw [hfind]
  · rcases find_first_characterization (fun v => variantKeyMatchesD pluralCat keyD v.1)
        variants with ⟨i, h, hp, hbefore, hfind⟩ | ⟨hall, hfind⟩
    · left
      refine ⟨i, h, hp, fun j hj hji => hbefore j hj hji, ?_⟩
      unfold findD
      rw [hfind]
    · right
      refine ⟨hall, ?_⟩
      unfold findD
      rw [hfind]

/-! ## C3: repeated add_resource for one locale -/

/-- C3, amended claim.  When add_resource is called for a locale whose bundle
already exists in the loader, std::unordered_map::insert leaves the map
unchanged, so the newly supplied entries are discarded: the loader after the
call is the loader before it, and in particular message lookups still see the
first resource's messages and messages present only in the second resource
are not retrievable. -/
theorem c3_existing_bundle_kept (l : FluentLoader) (loc : String) (entries : List Entry)
    (h : (lookupAssoc l.bundles loc).isSome = true) :
    l.addResourceEntries loc entries = l := by
  have h2 : (l.bundles.find? (fun p => p.1 == loc)).isSome = true := by
    simpa [lookupAssoc] using h
  cases l with
  | mk bs =>
    simp only [FluentLoader.addResourceEntries, insertNoReplace, FluentLoader.mk.injEq]
    rw [if_pos (by simpa using h2)]

theorem c3_existing_bundle_kept_witness :
    c3Loader1.addResourceEntries "en" [.message (Message.make "m2" [.text "B"] [])]
      = c3Loader1 :=
  c3_existing_bundle_kept c3Loader1 "en" [.message (Message.make "m2" [.text "B"] [])] rfl

/-! ## C6: duplicate attribute ids -/

/-- C6, amended claim.  Attribute ids within a Message are unique, but
duplicates are discarded rather than overwritten: for every attribute list,
getAttribute returns the first attribute in insertion order whose id matches
(std::unordered_map::insert keeps the existing entry). -/
theorem c6_first_attribute_wins (id : String) (raw : List PatternElement)
    (attrs : List Attribute) (aid : String) :
    (Message.make id raw attrs).getAttribute aid
      = attrs.find? (fun a => a.id == aid) := by
  show lookupAssoc (attrs.foldl (fun m a => insertNoReplace m a.id a) []) aid
      = attrs.find? (fun a => a.id == aid)
  have key : ∀ (as : List Attribute) (acc : List (String × Attribute)),
      lookupAssoc (as.foldl (fun m a => insertNoReplace m a.id a) acc) aid =
        match lookupAssoc acc aid with
        | some v => some v
        | none => as.find? (fun a => a.id == aid) := by
    intro as
    induction as with
    | nil =>
      intro acc
      simp only [List.foldl_nil, List.find?_nil]
      cases lookupAssoc acc aid <;> rfl
    | cons a rest ih =>
      intro acc
      rw [List.foldl_cons, ih]
      unfold insertNoReplace
      by_cases hpresent : (acc.find? (fun p => p.1 == a.id)).isSome = true
      · rw [if_pos hpresent]
        cases hacc : lookupAssoc acc aid with
        | some w => rfl
        | none =>
          have hne : (a.id == aid) = false := by
            cases hkk : (a.id == aid) with
            | false => rfl
            | true =>
              exfalso
              have heq : a.id = aid := eq_of_beq hkk
              rw [heq] at hpresent
              unfold lookupAssoc at hacc
              cases hf : acc.find? (fun p => p.1 == aid) with
              | none => rw [hf] at hpresent; simp at hpresent
              | some p => rw [hf] at hacc; simp at hacc
          simp only [List.find?_cons, hne]
      · rw [if_neg hpresent]
        rw [lookupAssoc_append]
        cases hacc : lookupAssoc acc aid with
        | some w => rfl
        | none =>
          cases hk : (a.id == aid) with
          | true =>
            have h1 : lookupAssoc [(a.id, a)] aid = some a := by
              simp [lookupAssoc, List.find?, hk]
            rw [h1]
            simp only [List.find?_cons, hk]
          | false =>
            have h1 : lookupAssoc [(a.id, a)] aid = none := by
              simp [lookupAssoc, List.find?, hk]
            rw [h1]
            simp only [List.find?_cons, hk]
  rw [key attrs []]
  rfl

/-! ## C10: empty-optional attribute access -/

/-- C10, amended claim.  The attribute optional returned by getAttribute is
dereferenced in formatPattern's reference branches whether or not it holds a
value: whenever the referenced message (resp. term) is found by lookup but
does not define the named attribute, the formatter dereferences the empty
optional — undefined behavior, modelled as an abnormal result — so
formatting is total only on patterns whose found references carry defined
attributes. -/
theorem c10_missing_attribute_failure (env : FormatEnv)
    (lookupM : String → Option Message) (lookupT : String → Option Term)
    (fuel : Nat) (loc id attrId : String) (msg : Message)
    (rest : List PatternElement) (args : List (String × Variable)) :
    (lookupM id = some msg → msg.getAttribute attrId = none →
      formatPattern env lookupM lookupT (fuel + 1) loc
        (.messageReference id (some attrId) :: rest) args = none)
    ∧ (lookupT id = some msg → msg.getAttribute attrId = none →
      formatPattern env lookupM lookupT (fuel + 1) loc
        (.termReference id (some attrId) :: rest) args = none) := by
  constructor
  · intro hm ha
    simp [formatPattern, hm, ha]
  · intro hm ha
    simp [formatPattern, hm, ha]

theorem c10_missing_attribute_failure_witness :
    formatPattern envTest c10LookupM noTerms 6 "en"
      [.messageReference "m" (some "a")] [] = none :=
  (c10_missing_attribute_failure envTest c10LookupM noTerms 5 "en" "m" "a"
      (Message.make "m" [.text "hi"] []) [] []).1 rfl rfl

/-! ## C4: locale fallback -/

/-- When the two locales map to the same bundle, resolving through the chain
[a, b] is resolving through [a] alone: either a's bundle defines the message
(found under locale a both times), or it does not and b's identical bundle
does not either. -/
theorem getMessage_two_locale (l : FluentLoader) (a b : String)
    (hb : lookupAssoc l.bundles a = lookupAssoc l.bundles b) (id : String) :
    l.getMessage [a, b] id = l.getMessage [a] id := by
  have hba : lookupAssoc l.bundles b = lookupAssoc l.bundles a := hb.symm
  simp only [FluentLoader.getMessage]
  rw [hba]
  cases ha : lookupAssoc l.bundles a with
  | none => rfl
  | some B =>
    cases hm : B.getMessage id with
    | some m => simp [hm]
    | none => simp [hm]

/-- The term analogue of getMessage_two_locale. -/
theorem getTerm_two_locale (l : FluentLoader) (a b : String)
    (hb : lookupAssoc l.bundles a = lookupAssoc l.bundles b) (id : String) :
    l.getTerm [a, b] id = l.getTerm [a] id := by
  have hba : lookupAssoc l.bundles b = lookupAssoc l.bundles a := hb.symm
  simp only [FluentLoader.getTerm]
  rw [hba]
  cases ha : lookupAssoc l.bundles a with
  | none => rfl
  | some B =>
    cases hm : B.getTerm id with
    | some t => simp [hm]
    | none => simp [hm]

/-- A single-locale chain resolves nothing when the locale does not define
the message. -/
theorem getMessage_single_none (l : FluentLoader) (a base : String)
    (hd : definesIn l a base = false) : l.getMessage [a] base = none := by
  unfold definesIn at hd
  simp only [FluentLoader.getMessage]
  cases ha : lookupAssoc l.bundles a with
  | none => rfl
  | some B =>
    rw [ha] at hd
    simp only [Option.some_bind] at hd
    have hm : B.getMessage base = none := by
      cases hm2 : B.getMessage base with
      | none => rfl
      | some m => rw [hm2] at hd; simp at hd
    simp [hm]

/-- C4.  For a loader holding identical resources under locales a and b
(the two locales map to equal bundles), format_message([a, b], id, args)
equals the result from locale a whenever a defines the base message, equals
the result from locale b when only b defines it, and is the returned empty
optional — an absence, not an abnormal termination — when neither defines
it.  The requested id is assumed to be a well-formed message reference
(parseMessageReference throws on anything else). -/
theorem c4_locale_fallback (l : FluentLoader) (env : FormatEnv) (fuel : Nat)
    (a b resId : String) (args : List (String × Variable))
    (base : String) (attrOpt : Option String)
    (hparse : parseMessageReference resId = some (base, attrOpt))
    (hb : lookupAssoc l.bundles a = lookupAssoc l.bundles b) :
    (definesIn l a base = true →
      l.formatMessage env fuel [a, b] resId args = l.formatMessage env fuel [a] resId args)
    ∧ (definesIn l a base = false → definesIn l b base = true →
      l.formatMessage env fuel [a, b] resId args = l.formatMessage env fuel [b] resId args)
    ∧ (definesIn l a base = false → definesIn l b base = false →
      l.formatMessage env fuel [a, b] resId args = some none) := by
  have hMeq : ∀ id, l.getMessage [a, b] id = l.getMessage [a] id :=
    getMessage_two_locale l a b hb
  have hTeq : ∀ id, l.getTerm [a, b] id = l.getTerm [a] id :=
    getTerm_two_locale l a b hb
  have hlm : (fun id => (l.getMessage [a, b] id).map (fun p => p.1))
      = (fun id => (l.getMessage [a] id).map (fun p => p.1)) :=
    funext fun id => by rw [hMeq id]
  have hlt : (fun id => l.getTerm [a, b] id) = (fun id => l.getTerm [a] id) :=
    funext fun id => by rw [hTeq id]
  refine ⟨?_, ?_, ?_⟩
  · intro _hd
    simp only [FluentLoader.formatMessage, hparse]
    rw [hMeq base, hlm, hlt]
  · intro hd1 hd2
    have hfb : definesIn l b base = false := by
      unfold definesIn
      rw [← hb]
      exact hd1
    rw [hfb] at hd2
    cases hd2
  · intro hd1 _hd2
    have h0 : l.getMessage [a, b] base = none := by
      rw [hMeq base]
      exact getMessage_single_none l a base hd1
    simp only [FluentLoader.formatMessage, hparse]
    rw [h0]

theorem c4_locale_fallback_witness :
    (definesIn c4Loader "aa" "m" = true →
      c4Loader.formatMessage envTest 4 ["aa", "bb"] "m" []
        = c4Loader.formatMessage envTest 4 ["aa"] "m" [])
    ∧ (definesIn c4Loader "aa" "m" = false → definesIn c4Loader "bb" "m" = true →
      c4Loader.formatMessage envTest 4 ["aa", "bb"] "m" []
        = c4Loader.formatMessage envTest 4 ["bb"] "m" [])
    ∧ (definesIn c4Loader "aa" "m" = false → definesIn c4Loader "bb" "m" = false →
      c4Loader.formatMessage envTest 4 ["aa", "bb"] "m" [] = some none) :=
  c4_locale_fallback c4Loader envTest 4 "aa" "bb" "m" [] "m" none rfl rfl

/-! ## C7: normalizer invariant lemmas -/

theorem data_mk (l : List Char) : (String.mk l).data = l := rfl

/-- findFirstNotOf points at a character of the list that is outside the set. -/
theorem findFirstNotOf_get (set : List Char) :
    ∀ (l : List Char) (i : Nat), findFirstNotOf set l = some i →
      ∃ c, l.get? i = some c ∧ c ∉ set := by
  intro l
  induction l with
  | nil => intro i h; simp [findFirstNotOf] at h
  | cons a t ih =>
    intro i h
    by_cases ha : a ∈ set
    · simp only [findFirstNotOf, if_pos ha] at h
      cases hf : findFirstNotOf set t with
      | none => rw [hf] at h; simp at h
      | some j =>
        rw [hf] at h
        simp at h
        obtain ⟨c, hc, hcs⟩ := ih j hf
        refine ⟨c, ?_, hcs⟩
        rw [← h]
        exact hc
    · simp only [findFirstNotOf, if_neg ha] at h
      have h0 : i = 0 := by
        injection h with h1
        omega
      subst h0
      exact ⟨a, rfl, ha⟩

/-- The first character surviving stripStart is not whitespace. -/
theorem stripStartL_leading :
    ∀ (l : List Char) (c : Char), (stripStartL l).head? = some c → c ∉ wsSet := by
  intro l
  induction l with
  | nil => intro c h; simp [stripStartL, findFirstNotOf] at h
  | cons a t ih =>
    intro c h
    by_cases ha : a ∈ wsSet
    · have hs : stripStartL (a :: t) = stripStartL t := by
        unfold stripStartL
        simp only [findFirstNotOf, if_pos ha]
        cases hf : findFirstNotOf wsSet t with
        | none => rfl
        | some j => simp
      rw [hs] at h
      exact ih c h
    · have hs : stripStartL (a :: t) = a :: t := by
        unfold stripStartL
        simp only [findFirstNotOf, if_neg ha]
        rfl
      rw [hs] at h
      injection h with h1
      rw [← h1]
      exact ha

/-- getLast? ignores a cons onto a non-empty list. -/
theorem getLast?_cons_ne (a : α) (xs : List α) (h : xs ≠ []) :
    (a :: xs).getLast? = xs.getLast? := by
  cases xs with
  | nil => cases h rfl
  | cons b ys => simp [List.getLast?]

/-- The last character surviving stripEnd is not whitespace. -/
theorem stripEndL_trailing :
    ∀ (l : List Char) (c : Char), (stripEndL l).getLast? = some c → c ∉ wsSet := by
  intro l
  induction l with
  | nil => intro c h; simp [stripEndL, findLastNotOf] at h
  | cons a t ih =>
    intro c h
    unfold stripEndL at h
    simp only [findLastNotOf] at h
    cases hf : findLastNotOf wsSet t with
    | some i =>
      rw [hf] at h
      have ht : stripEndL t = t.take (i + 1) := by
        unfold stripEndL
        rw [hf]
      have htne : t.take (i + 1) ≠ [] := by
        cases t with
        | nil => simp [findLastNotOf] at hf
        | cons b u => simp [List.take]
      have h2 : (a :: t.take (i + 1)).getLast? = some c := h
      rw [getLast?_cons_ne a _ htne] at h2
      exact ih c (by rw [ht]; exact h2)
    | none =>
      rw [hf] at h
      by_cases ha : a ∈ wsSet
      · rw [if_pos ha] at h
        simp at h
      · rw [if_neg ha] at h
        have h2 : List.getLast? [a] = some c := h
        simp at h2
        rw [← h2]
        exact ha

/-- A drop's last element is the original list's last element. -/
theorem getLast?_drop_eq :
    ∀ (b : Nat) (l : List α) (c : α), (l.drop b).getLast? = some c → l.getLast? = some c := by
  intro b
  induction b with
  | zero => intro l c h; simpa using h
  | succ b0 ih =>
    intro l c h
    cases l with
    | nil => simp at h
    | cons a t =>
      have := ih t c (by simpa using h)
      have htne : t ≠ [] := by
        intro he
        rw [he] at this
        simp at this
      rw [getLast?_cons_ne a t htne]
      exact this

/-- stripStart preserves a present last element. -/
theorem stripStartL_getLast? (l : List Char) (c : Char)
    (h : (stripStartL l).getLast? = some c) : l.getLast? = some c := by
  unfold stripStartL at h
  cases hf : findFirstNotOf wsSet l with
  | none => rw [hf] at h; simp at h
  | some b =>
    rw [hf] at h
    exact getLast?_drop_eq b l c h

/-- A list that does not start with a carriage return does not start with
CR LF. -/
theorem startsWithCRLF_cons_ne (c : Char) (h : ¬ c = '\r') (xs : List Char) :
    startsWithCRLF (c :: xs) = false := by
  cases xs with
  | nil => rfl
  | cons d ds => simp [startsWithCRLF, h]

/-- A string with no leading whitespace does not start with CR LF. -/
theorem not_starts_crlf_of_leading (l : List Char)
    (h : ∀ c, l.head? = some c → c ∉ wsSet) : startsWithCRLF l = false := by
  cases l with
  | nil => rfl
  | cons c rest =>
    have hc : c ∉ wsSet := h c rfl
    have : ¬ c = '\r' := by
      intro hEq
      rw [hEq] at hc
      simp [wsSet] at hc
    exact startsWithCRLF_cons_ne c this rest

/-- The lines produced by the getline decomposition contain no newline. -/
theorem getlines_no_nl :
    ∀ (l : List Char), ∀ line ∈ getlines l, '\n' ∉ line := by
  intro l
  induction l with
  | nil => intro line hmem; simp [getlines] at hmem
  | cons c rest ih =>
    intro line hmem
    by_cases hc : c = '\n'
    · rw [show getlines (c :: rest) = [] :: getlines rest by simp [getlines, hc]] at hmem
      cases hmem with
      | head => simp
      | tail _ hmem2 => exact ih line hmem2
    · rw [show getlines (c :: rest)
          = (match getlines rest with
             | [] => [[c]]
             | line :: lines => (c :: line) :: lines) by simp [getlines, hc]] at hmem
      cases hg : getlines rest with
      | nil =>
        rw [hg] at hmem
        simp at hmem
        rw [hmem]
        intro hEq
        cases hEq with
        | head => exact hc rfl
        | tail _ h3 => cases h3
      | cons line0 lines =>
        rw [hg] at hmem
        cases hmem with
        | head =>
          intro hmem2
          cases hmem2 with
          | head => exact hc rfl
          | tail _ h3 => exact ih line0 (by rw [hg]; exact List.mem_cons_self _ _) h3
        | tail _ hmem2 =>
          exact ih line (by rw [hg]; exact List.mem_cons_of_mem _ hmem2)

/-- Every character of a stripped line comes from the line. -/
theorem stripIndentLine_subset (i : Nat) (line : List Char) :
    ∀ c ∈ stripIndentLine i line, c ∈ line := by
  intro c hc
  unfold stripIndentLine at hc
  cases hf : findFirstNotOf wsSet line with
  | none => rw [hf] at hc; simp at hc
  | some p =>
    rw [hf] at hc
    have hc2 : c ∈ (if 0 < p then List.drop (min i p) line else line) := hc
    by_cases hp : 0 < p
    · rw [if_pos hp] at hc2
      exact List.drop_subset _ line hc2
    · rw [if_neg hp] at hc2
      exact hc2

/-- A stripped line is never the one-character string CR: a whitespace-only
line is cleared, and otherwise the line's first non-whitespace character
survives the drop. -/
theorem stripIndentLine_ne_single_cr (i : Nat) (line : List Char)
    (hnl : '\n' ∉ line) : stripIndentLine i line ≠ ['\r'] := by
  intro hEq
  unfold stripIndentLine at hEq
  cases hf : findFirstNotOf wsSet line with
  | none => rw [hf] at hEq; simp at hEq
  | some p =>
    rw [hf] at hEq
    have hEq2 : (if 0 < p then List.drop (min i p) line else line) = ['\r'] := hEq
    obtain ⟨c, hcp, hcs⟩ := findFirstNotOf_get wsSet line p hf
    by_cases hp : 0 < p
    · rw [if_pos hp] at hEq2
      have hmin : min i p ≤ p := Nat.min_le_right i p
      have hg : (line.drop (min i p)).get? (p - min i p) = line.get? p := by
        rw [List.get?_drop]
        congr 1
        omega
      rw [hEq2] at hg
      cases hd : p - min i p with
      | zero =>
        rw [hd] at hg
        have hg2 : some '\r' = line.get? p := hg
        rw [hcp] at hg2
        injection hg2 with hg1
        rw [← hg1] at hcs
        simp [wsSet] at hcs
      | succ d =>
        rw [hd] at hg
        have hg2 : (none : Option Char) = line.get? p := hg
        rw [hcp] at hg2
        cases hg2
    · rw [if_neg hp] at hEq2
      have hp0 : p = 0 := by omega
      rw [hp0] at hcp
      rw [hEq2] at hcp
      have hc2 : some '\r' = some c := hcp
      injection hc2 with h1
      rw [← h1] at hcs
      simp [wsSet] at hcs

/-- The output of stripIndent never starts with CR LF: the first emitted line
either is empty (the output starts with the appended newline), or starts with
a non-whitespace character, or starts with carriage returns followed within
the line by more characters — never a carriage return directly followed by a
newline. -/
theorem stripIndentL_not_starts_crlf (l : List Char) (i : Nat) :
    startsWithCRLF (stripIndentL l i) = false := by
  unfold stripIndentL
  cases hg : getlines l with
  | nil => rfl
  | cons line0 rest =>
    have hnl : '\n' ∉ line0 :=
      getlines_no_nl l line0 (by rw [hg]; exact List.mem_cons_self _ _)
    simp only [List.map_cons, List.flatten_cons]
    cases hr : stripIndentLine i line0 with
    | nil =>
      simp only [List.nil_append]
      exact startsWithCRLF_cons_ne '\n' (by decide) _
    | cons c1 r1 =>
      cases r1 with
      | nil =>
        have hc1 : ¬ c1 = '\r' := by
          intro hEq
          rw [hEq] at hr
          exact stripIndentLine_ne_single_cr i line0 hnl hr
        simp only [List.cons_append, List.nil_append]
        exact startsWithCRLF_cons_ne c1 hc1 _
      | cons c2 r2 =>
        by_cases hc1 : c1 = '\r'
        · have hc2mem : c2 ∈ line0 := by
            apply stripIndentLine_subset i line0
            rw [hr]
            exact List.mem_cons_of_mem _ (List.mem_cons_self _ _)
          have hc2 : ¬ c2 = '\n' := by
            intro hEq
            rw [hEq] at hc2mem
            exact hnl hc2mem
          simp only [List.cons_append]
          simp [startsWithCRLF, hc2]
        · simp only [List.cons_append]
          simp [startsWithCRLF, hc1]

/-- stripEnd preserves not-starting-with-CR-LF (it only shortens the tail). -/
theorem stripEndL_not_starts_crlf (x : List Char)
    (h : startsWithCRLF x = false) : startsWithCRLF (stripEndL x) = false := by
  unfold stripEndL
  cases he : findLastNotOf wsSet x with
  | none => rfl
  | some e =>
    show startsWithCRLF (List.take (e + 1) x) = false
    cases x with
    | nil => rfl
    | cons c1 t =>
      cases t with
      | nil =>
        rw [show List.take (e + 1) [c1] = [c1] by simp]
        rfl
      | cons c2 t2 =>
        cases e with
        | zero => rfl
        | succ e2 =>
          have hy : startsWithCRLF (List.take (e2 + 1 + 1) (c1 :: c2 :: t2))
              = (decide (c1 = '\r') && decide (c2 = '\n')) := rfl
          have hx : startsWithCRLF (c1 :: c2 :: t2) = (decide (c1 = '\r') && decide (c2 = '\n')) := rfl
          rw [hy, ← hx]
          exact h

/-- The text flushed mid-pattern never starts with CR LF. -/
theorem processedMid_not_crlf (first : Bool) (mi : Nat) (last : List Char) :
    startsWithCRLF (processedMid first mi last).data = false := by
  cases first with
  | true =>
    show startsWithCRLF (stripStartL (stripIndentL (replaceNewlinesL last) mi)) = false
    apply not_starts_crlf_of_leading
    intro c hc
    exact stripStartL_leading _ c hc
  | false =>
    show startsWithCRLF (stripIndentL (replaceNewlinesL last) mi) = false
    exact stripIndentL_not_starts_crlf _ mi

/-- The text flushed at the end never starts with CR LF. -/
theorem processedEnd_not_crlf (first : Bool) (mi : Nat) (last : List Char) :
    startsWithCRLF (processedEnd first mi last).data = false := by
  cases first with
  | true =>
    show startsWithCRLF (stripStartL (stripEndL (stripIndentL (replaceNewlinesL last) mi)))
        = false
    apply not_starts_crlf_of_leading
    intro c hc
    exact stripStartL_leading _ c hc
  | false =>
    show startsWithCRLF (stripEndL (stripIndentL (replaceNewlinesL last) mi)) = false
    exact stripEndL_not_starts_crlf _ (stripIndentL_not_starts_crlf _ mi)

/-- A first flush (stripStart applied) has no leading whitespace. -/
theorem processedMid_true_leading (mi : Nat) (last : List Char) :
    LeadingOK (processedMid true mi last) := by
  intro c hc
  exact stripStartL_leading _ c hc

/-- A first-and-final flush has no leading whitespace. -/
theorem processedEnd_true_leading (mi : Nat) (last : List Char) :
    LeadingOK (processedEnd true mi last) := by
  intro c hc
  exact stripStartL_leading (stripEndL (stripIndentL (replaceNewlinesL last) mi)) c hc

/-- The final flush (stripEnd applied) has no trailing whitespace. -/
theorem processedEnd_trailing (first : Bool) (mi : Nat) (last : List Char) :
    TrailingOK (processedEnd first mi last) := by
  cases first with
  | true =>
    intro c hc
    have hc2 : (stripStartL (stripEndL (stripIndentL (replaceNewlinesL last) mi))).getLast?
        = some c := hc
    exact stripEndL_trailing _ c (stripStartL_getLast? _ c hc2)
  | false =>
    intro c hc
    have hc2 : (stripEndL (stripIndentL (replaceNewlinesL last) mi)).getLast? = some c := hc
    exact stripEndL_trailing _ c hc2

theorem isText_eq_true_iff (e : PatternElement) : isText e = true ↔ ∃ s, e = .text s := by
  cases e <;> simp [isText]

/-- Prepending a non-text element preserves the no-adjacent-texts property. -/
theorem noadj_cons_of_nontext (e : PatternElement) (rest : List PatternElement)
    (he : isText e = false) (h : NoAdjTexts rest) : NoAdjTexts (e :: rest) := by
  cases rest with
  | nil => exact trivial
  | cons r rs =>
    refine ⟨?_, h⟩
    intro hpair
    rw [he] at hpair
    simp at hpair

theorem textsOfPattern_cons_text (s : String) (p : List PatternElement) :
    textsOfPattern (.text s :: p) = s :: textsOfPattern p := rfl

theorem textsOfPattern_cons_nontext (e : PatternElement) (p : List PatternElement)
    (h : isText e = false) : textsOfPattern (e :: p) = textsOfPattern p := by
  cases e with
  | text s => simp [isText] at h
  | stringLiteral s => rfl
  | numberLiteral s => rfl
  | variableReference s => rfl
  | messageReference a b => rfl
  | termReference a b => rfl
  | selectExpression a b c => rfl

/-- The non-text step of the addPattern element loop. -/
theorem addPatternLoop_cons_nontext (mi : Nat) (e : PatternElement)
    (rest : List PatternElement) (first ls : Bool) (last : List Char)
    (he : isText e = false) :
    addPatternLoop mi (e :: rest) first ls last =
      if ls then
        .text (processedMid first mi last) :: e :: addPatternLoop mi rest false false []
      else e :: addPatternLoop mi rest first false [] := by
  cases e with
  | text s => simp [isText] at he
  | stringLiteral s => rfl
  | numberLiteral s => rfl
  | variableReference s => rfl
  | messageReference a b => rfl
  | termReference a b => rfl
  | selectExpression a b c => rfl

/-- No two adjacent text elements survive the addPattern loop. -/
theorem addPatternLoop_noadj (mi : Nat) :
    ∀ (l : List PatternElement) (first ls : Bool) (last : List Char),
      NoAdjTexts (addPatternLoop mi l first ls last) := by
  intro l
  induction l with
  | nil =>
    intro first ls last
    cases ls with
    | true => exact trivial
    | false => exact trivial
  | cons e rest ih =>
    intro first ls last
    cases he : isText e with
    | true =>
      obtain ⟨s, rfl⟩ := (isText_eq_true_iff e).mp he
      exact ih first true (if ls then last ++ s.data else s.data)
    | false =>
      rw [addPatternLoop_cons_nontext mi e rest first ls last he]
      cases ls with
      | true =>
        rw [if_pos rfl]
        refine ⟨?_, noadj_cons_of_nontext e _ he (ih false false [])⟩
        intro hpair
        rw [he] at hpair
        simp at hpair
      | false =>
        rw [if_neg (by simp)]
        exact noadj_cons_of_nontext e _ he (ih first false [])

/-- Every text element emitted by the addPattern loop avoids a CR LF start. -/
theorem addPatternLoop_texts_crlf (mi : Nat) :
    ∀ (l : List PatternElement) (first ls : Bool) (last : List Char),
      ∀ s ∈ textsOfPattern (addPatternLoop mi l first ls last),
        startsWithCRLF s.data = false := by
  intro l
  induction l with
  | nil =>
    intro first ls last s hs
    cases ls with
    | true =>
      have hs2 : s ∈ [processedEnd first mi last] := hs
      simp at hs2
      rw [hs2]
      exact processedEnd_not_crlf first mi last
    | false =>
      have hs2 : s ∈ ([] : List String) := hs
      cases hs2
  | cons e rest ih =>
    intro first ls last s hs
    cases he : isText e with
    | true =>
      obtain ⟨t, rfl⟩ := (isText_eq_true_iff e).mp he
      exact ih first true (if ls then last ++ t.data else t.data) s hs
    | false =>
      rw [addPatternLoop_cons_nontext mi e rest first ls last he] at hs
      cases ls with
      | true =>
        rw [if_pos rfl, textsOfPattern_cons_text,
          textsOfPattern_cons_nontext e _ he] at hs
        cases hs with
        | head => exact processedMid_not_crlf first mi last
        | tail _ hs2 => exact ih false false [] s hs2
      | false =>
        rw [if_neg (by simp), textsOfPattern_cons_nontext e _ he] at hs
        exact ih first false [] s hs

/-- Before the first flush, the first text the loop will emit is
whitespace-stripped at the front. -/
theorem addPatternLoop_first_text (mi : Nat) :
    ∀ (l : List PatternElement) (ls : Bool) (last : List Char) (s : String),
      (textsOfPattern (addPatternLoop mi l true ls last)).head? = some s →
      LeadingOK s := by
  intro l
  induction l with
  | nil =>
    intro ls last s hs
    cases ls with
    | true =>
      have hs2 : (some (processedEnd true mi last) : Option String) = some s := hs
      injection hs2 with h1
      rw [← h1]
      exact processedEnd_true_leading mi last
    | false =>
      have hs2 : (none : Option String) = some s := hs
      cases hs2
  | cons e rest ih =>
    intro ls last s hs
    cases he : isText e with
    | true =>
      obtain ⟨t, rfl⟩ := (isText_eq_true_iff e).mp he
      exact ih true (if ls then last ++ t.data else t.data) s hs
    | false =>
      rw [addPatternLoop_cons_nontext mi e rest true ls last he] at hs
      cases ls with
      | true =>
        rw [if_pos rfl, textsOfPattern_cons_text] at hs
        have hs2 : (some (processedMid true mi last) : Option String) = some s := hs
        injection hs2 with h1
        rw [← h1]
        exact processedMid_true_leading mi last
      | false =>
        rw [if_neg (by simp), textsOfPattern_cons_nontext e _ he] at hs
        exact ih false [] s hs

/-- When the loop output ends with a text element, that element is
whitespace-stripped at the back. -/
theorem addPatternLoop_last_text (mi : Nat) :
    ∀ (l : List PatternElement) (first ls : Bool) (last : List Char) (s : String),
      (addPatternLoop mi l first ls last).getLast? = some (.text s) →
      TrailingOK s := by
  intro l
  induction l with
  | nil =>
    intro first ls last s hs
    cases ls with
    | true =>
      have hs2 : (some (PatternElement.text (processedEnd first mi last)) :
          Option PatternElement) = some (.text s) := hs
      injection hs2 with h1
      injection h1 with h2
      rw [← h2]
      exact processedEnd_trailing first mi last
    | false =>
      have hs2 : (none : Option PatternElement) = some (.text s) := hs
      cases hs2
  | cons e rest ih =>
    intro first ls last s hs
    cases he : isText e with
    | true =>
      obtain ⟨t, rfl⟩ := (isText_eq_true_iff e).mp he
      exact ih first true (if ls then last ++ t.data else t.data) s hs
    | false =>
      rw [addPatternLoop_cons_nontext mi e rest first ls last he] at hs
      cases ls with
      | true =>
        rw [if_pos rfl] at hs
        cases hrec : addPatternLoop mi rest false false [] with
        | nil =>
          rw [hrec] at hs
          have hs2 : e = .text s := by simpa using hs
          rw [hs2] at he
          simp [isText] at he
        | cons r0 rrest =>
          rw [hrec] at hs
          rw [getLast?_cons_ne _ _ (by simp), getLast?_cons_ne _ _ (by simp)] at hs
          rw [← hrec] at hs
          exact ih false false [] s hs
      | false =>
        rw [if_neg (by simp)] at hs
        cases hrec : addPatternLoop mi rest first false [] with
        | nil =>
          rw [hrec] at hs
          have hs2 : e = .text s := by simpa using hs
          rw [hs2] at he
          simp [isText] at he
        | cons r0 rrest =>
          rw [hrec] at hs
          rw [getLast?_cons_ne _ _ (by simp)] at hs
          rw [← hrec] at hs
          exact ih first false [] s hs

/-- C7, amended claim.  Every pattern produced by the normalizer (addPattern
as invoked by the Message and Attribute constructors, on any parser output)
has no two adjacent text elements; no text element begins with "\r\n"; the
first text element has no leading spaces, carriage returns or newlines; and
when the pattern ends with a text element, that element has no trailing
spaces, carriage returns or newlines.  (The original claim's stronger
clauses fail: a text element may contain "\r\n", and a text element followed
by a placeable keeps trailing whitespace and gains a trailing newline — see
the counterexample.) -/
theorem c7_normalizer_invariants (newPattern : List PatternElement) :
    NoAdjTexts (addPattern newPattern []) ∧
    (∀ s ∈ textsOfPattern (addPattern newPattern []), startsWithCRLF s.data = false) ∧
    (∀ s, (textsOfPattern (addPattern newPattern [])).head? = some s → LeadingOK s) ∧
    (∀ s, (addPattern newPattern []).getLast? = some (.text s) → TrailingOK s) := by
  unfold addPattern
  simp only [List.nil_append]
  exact ⟨addPatternLoop_noadj _ newPattern true false [],
    fun s hs => addPatternLoop_texts_crlf _ newPattern true false [] s hs,
    fun s hs => addPatternLoop_first_text _ newPattern false [] s hs,
    fun s hs => addPatternLoop_last_text _ newPattern true false [] s hs⟩

end FluentCpp
